import Mathlib

/-!
A verification development for the nelm deployment engine.  The definitions
below are a shallow embedding of the Go sources:

* `internal/kube/kube_client.go` — the Kube Client facade (`Get`, `Create`,
  `Apply`, `MergePatch`, `Delete`) with its per-invocation read cache, and the
  `Release` state machine (`Pend`, `Fail`, `Succeed`, `Supersede`, `Skip`,
  `Succeeded`, `Failed`).
* `internal/plan/plan.go` — the `Plan` DAG (`AddOperation`,
  `AddStagedOperation`, `AddDependency`, the query functions and `Useless`).
* `internal/plan/operation/apply_resource_operation.go` —
  `ApplyResourceOperation`.
* `pkg/log/logboek_logger.go` — the grouped push/pop message stashes.

Cluster RPC outcomes, REST-mapping resolution and the identity of Kubernetes
objects are inputs of the model: an object is an abstract `Nat`, an RPC result
is an `Except`.  Error wrapping with a context prefix is modelled as identity
on the underlying error value.
-/

namespace Nelm

/-- Equality of `Except` values is decidable when it is on both sides. -/
instance exceptDecEq {ε α : Type} [DecidableEq ε] [DecidableEq α] :
    DecidableEq (Except ε α) := fun x y =>
  match x, y with
  | .error a, .error b =>
    if h : a = b then isTrue (by rw [h]) else isFalse (fun hc => by cases hc; exact h rfl)
  | .ok a, .ok b =>
    if h : a = b then isTrue (by rw [h]) else isFalse (fun hc => by cases hc; exact h rfl)
  | .error _, .ok _ => isFalse (fun hc => by cases hc)
  | .ok _, .error _ => isFalse (fun hc => by cases hc)

/-- A Kubernetes API error, as the facade observes it: `errors.IsNotFound`
is the only predicate the code consults, the rest of the error is abstract. -/
structure KErr where
  notFound : Bool
  code : Nat
deriving DecidableEq, Repr

/-- One entry of the cluster read cache (`clusterCacheEntry` in
`kube_client.go`): either a cached object or a cached error. -/
inductive CacheEntry where
  | obj (o : Nat)
  | err (e : KErr)
deriving DecidableEq, Repr

/-- The TTL read cache, `VersionID → entry`.  The cache is created with no
default TTL and entries are set with ttl 0 (inherit default), so within one
invocation nothing expires: an association list models it. -/
abbrev ClusterCache := List (String × CacheEntry)

/-- `ttlcache.Set`: overwrite the entry under a key. -/
def cacheSet (c : ClusterCache) (k : String) (e : CacheEntry) : ClusterCache :=
  (k, e) :: c.filter (fun p => p.1 ≠ k)

/-- `ttlcache.Delete`: drop the entry under a key. -/
def cacheDelete (c : ClusterCache) (k : String) : ClusterCache :=
  c.filter (fun p => p.1 ≠ k)

/-- `ttlcache.Get`: look an entry up. -/
def cacheGet (c : ClusterCache) (k : String) : Option CacheEntry :=
  (c.find? (fun p => p.1 = k)).map (·.2)

/-- The slice of `id.ResourceID` the facade uses: the `VersionID()` string
(the cache and lock key) and whether the resolved `GroupResource` names a
CRD.  Modelled from the spec: `util.IsCRDFromGR` is not among the sources, so
whether a resource is a CRD is carried as a field. -/
structure Resource where
  versionID : String
  isCRD : Bool
deriving DecidableEq, Repr

/-- Result of `KubeClient.Get`: the returned value, the cache afterwards, and
whether a cluster RPC was performed. -/
structure GetOutcome where
  result : Except KErr Nat
  cache : ClusterCache
  rpc : Bool
deriving DecidableEq

/-- `KubeClient.Get` (`kube_client.go:56`).  `resolve` is the outcome of the
`GroupVersionResource`/`Namespaced` resolution (`none` = success), `rpcRes`
the outcome the dynamic client would return for the GET. -/
def kubeGet (cache : ClusterCache) (r : Resource) (tryCache : Bool)
    (resolve : Option KErr) (rpcRes : Except KErr Nat) : GetOutcome :=
  match tryCache, cacheGet cache r.versionID with
  | true, some (CacheEntry.err e) => { result := .error e, cache := cache, rpc := false }
  | true, some (CacheEntry.obj o) => { result := .ok o, cache := cache, rpc := false }
  | _, _ =>
    match resolve with
    | some e => { result := .error e, cache := cache, rpc := false }
    | none =>
      match rpcRes with
      | .error e =>
        { result := .error e, cache := cacheSet cache r.versionID (.err e), rpc := true }
      | .ok o =>
        { result := .ok o, cache := cacheSet cache r.versionID (.obj o), rpc := true }

/-- Result of a mutating call: the returned value, the cache afterwards, and
whether `mapper.Reset()` was invoked. -/
structure MutateOutcome where
  result : Except KErr Nat
  cache : ClusterCache
  mapperReset : Bool
deriving DecidableEq

/-- `KubeClient.Create` (`kube_client.go:104`): server-side apply; on error
the error is cached, on success the returned object is cached and the mapper
is reset when the resource is a CRD.  The `ForceReplicas` option only rewrites
the request payload, which is abstracted into `rpcRes`. -/
def kubeCreate (cache : ClusterCache) (r : Resource)
    (resolve : Option KErr) (rpcRes : Except KErr Nat) : MutateOutcome :=
  match resolve with
  | some e => { result := .error e, cache := cache, mapperReset := false }
  | none =>
    match rpcRes with
    | .error e =>
      { result := .error e, cache := cacheSet cache r.versionID (.err e), mapperReset := false }
    | .ok o =>
      { result := .ok o, cache := cacheSet cache r.versionID (.obj o), mapperReset := r.isCRD }

/-- The `metav1.ApplyOptions` actually passed to the dynamic client. -/
structure ApplyCall where
  dryRun : List String
  force : Bool
  fieldManager : String
deriving DecidableEq, Repr

/-- Result of `KubeClient.Apply`: additionally records the options of the
RPC that was issued (`none` when resolution failed before any RPC). -/
structure ApplyOutcome where
  result : Except KErr Nat
  cache : ClusterCache
  mapperReset : Bool
  call : Option ApplyCall
deriving DecidableEq

/-- `KubeClient.Apply` (`kube_client.go:149`): server-side apply with
`Force=true`, `FieldManager="nelm"`; `DryRun` adds the `metav1.DryRunAll`
directive and suppresses cache writes and mapper resets. -/
def kubeApply (cache : ClusterCache) (r : Resource) (dryRunOpt : Bool)
    (resolve : Option KErr) (rpcRes : Except KErr Nat) : ApplyOutcome :=
  match resolve with
  | some e => { result := .error e, cache := cache, mapperReset := false, call := none }
  | none =>
    let dryRun : List String := if dryRunOpt then ["All"] else []
    let call : ApplyCall := { dryRun := dryRun, force := true, fieldManager := "nelm" }
    match rpcRes with
    | .error e =>
      { result := .error e
        cache := if dryRunOpt then cache else cacheSet cache r.versionID (.err e)
        mapperReset := false
        call := some call }
    | .ok o =>
      { result := .ok o
        cache := if dryRunOpt then cache else cacheSet cache r.versionID (.obj o)
        mapperReset := r.isCRD && !dryRunOpt
        call := some call }

/-- Result of `KubeClient.MergePatch`: the Go signature returns
`(*unstructured.Unstructured, error)`, whose `(nil, nil)` no-op outcome is
`Except.ok none` here. -/
structure PatchOutcome where
  result : Except KErr (Option Nat)
  cache : ClusterCache
deriving DecidableEq

/-- `KubeClient.MergePatch` (`kube_client.go:196`): a `NotFound` error from
the cluster is translated into `(nil, nil)` without touching the cache; other
errors are cached; a returned object is cached. -/
def kubeMergePatch (cache : ClusterCache) (r : Resource)
    (resolve : Option KErr) (rpcRes : Except KErr Nat) : PatchOutcome :=
  match resolve with
  | some e => { result := .error e, cache := cache }
  | none =>
    match rpcRes with
    | .error e =>
      if e.notFound then
        { result := .ok none, cache := cache }
      else
        { result := .error e, cache := cacheSet cache r.versionID (.err e) }
    | .ok o =>
      { result := .ok (some o), cache := cacheSet cache r.versionID (.obj o) }

/-- `metav1.DeletionPropagation`. -/
inductive Propagation where
  | foreground
  | background
  | orphan
deriving DecidableEq, Repr

/-- Result of `KubeClient.Delete`: the error outcome, the cache afterwards,
and the propagation policy sent with the RPC (`none` when resolution failed
before any RPC was issued). -/
structure DeleteOutcome where
  result : Except KErr Unit
  cache : ClusterCache
  policyUsed : Option Propagation
deriving DecidableEq

/-- `KubeClient.Delete` (`kube_client.go:237`): propagation defaults to
`Foreground`; a `NotFound` error from the cluster becomes a benign no-op; a
successful deletion removes the cache entry.  `rpcRes = none` means the
cluster accepted the deletion. -/
def kubeDelete (cache : ClusterCache) (r : Resource) (policy : Option Propagation)
    (resolve : Option KErr) (rpcRes : Option KErr) : DeleteOutcome :=
  match resolve with
  | some e => { result := .error e, cache := cache, policyUsed := none }
  | none =>
    let used := policy.getD .foreground
    match rpcRes with
    | some e =>
      if e.notFound then
        { result := .ok (), cache := cache, policyUsed := some used }
      else
        { result := .error e, cache := cache, policyUsed := some used }
    | none =>
      { result := .ok (), cache := cacheDelete cache r.versionID, policyUsed := some used }

/-! ### Release model (`internal/kube/kube_client.go`, `Release`) -/

/-- `helmrelease.Status`: the legacy chart history status set. -/
inductive HelmStatus where
  | unknown
  | deployed
  | uninstalled
  | superseded
  | failed
  | uninstalling
  | pendingInstall
  | pendingUpgrade
  | pendingRollback
  | skipped
deriving DecidableEq, Repr

/-- `common.DeployType`.  Modelled from the spec: the `common` package is not
among the sources; `Release.Pend` switches over exactly these four values. -/
inductive DeployType where
  | initial
  | install
  | upgrade
  | rollback
deriving DecidableEq, Repr

/-- The mutable attributes of a `Release` the status transitions touch, plus
the identity fields.  Timestamps are abstract instants; `0` is the zero
`time.Time`.  The values/chart/resource-list fields do not participate in any
transition and are left out. -/
structure Release where
  name : String
  namespace' : String
  revision : Nat
  status : HelmStatus
  firstDeployed : Nat
  lastDeployed : Nat
  notes : String
deriving DecidableEq, Repr

/-- `Release.Fail`. -/
def Release.fail (r : Release) : Release :=
  { r with status := .failed }

/-- `Release.Supersede`. -/
def Release.supersede (r : Release) : Release :=
  { r with status := .superseded }

/-- `Release.Succeed`. -/
def Release.succeed (r : Release) : Release :=
  { r with status := .deployed }

/-- `Release.Skip`. -/
def Release.skip (r : Release) : Release :=
  { r with status := .skipped }

/-- `Release.Pend` (`kube_client.go:541`): picks the pending status from the
deploy type, sets `firstDeployed` when it is still zero, and always sets
`lastDeployed`.  `now` stands for `time.Now()`. -/
def Release.pend (r : Release) (deployType : DeployType) (now : Nat) : Release :=
  let status :=
    match deployType with
    | .initial | .install => HelmStatus.pendingInstall
    | .upgrade => HelmStatus.pendingUpgrade
    | .rollback => HelmStatus.pendingRollback
  { r with
    status := status
    firstDeployed := if r.firstDeployed = 0 then now else r.firstDeployed
    lastDeployed := now }

/-- `Release.Succeeded` (`kube_client.go:516`). -/
def Release.succeededB (r : Release) : Bool :=
  match r.status with
  | .deployed | .superseded | .uninstalled => true
  | _ => false

/-- `Release.Failed` (`kube_client.go:527`). -/
def Release.failedB (r : Release) : Bool :=
  match r.status with
  | .failed | .unknown | .pendingInstall | .pendingUpgrade | .pendingRollback
  | .uninstalling => true
  | _ => false

/-! ### Operations and the Plan DAG (`internal/plan/plan.go`,
`internal/plan/operation/apply_resource_operation.go`) -/

/-- `operation.Status`. -/
inductive OpStatus where
  | unknown
  | completed
  | failed
deriving DecidableEq, Repr

/-- The closed set of `operation.Type` values `plan.go` dispatches over. -/
inductive OpType where
  | createR
  | recreateR
  | updateR
  | applyR
  | deleteR
  | extraPostCreateR
  | extraPostRecreateR
  | extraPostUpdateR
  | extraPostApplyR
  | extraPostDeleteR
  | trackReadiness
  | trackPresence
  | trackAbsence
  | stage
  | failRelease
  | succeedRelease
  | supersedePrevRelease
deriving DecidableEq, Repr

/-- The capability surface of `operation.Operation` the plan consumes:
`ID()`, `Type()`, `Status()`, `Empty()`. -/
structure Operation where
  id : String
  typ : OpType
  status : OpStatus
  empty : Bool
deriving DecidableEq, Repr

/-- `operation.NewStageOperation`: a pure ordering barrier.  Modelled from
the spec for the `Empty()` value: stage markers are always empty. -/
def NewStageOperation (id : String) : Operation :=
  { id := id, typ := .stage, status := .unknown, empty := true }

/-- `ApplyResourceOperation` (`apply_resource_operation.go`): the fields its
`ID`/`Type`/`Status`/`Empty` methods read. -/
structure ApplyResourceOperation where
  resource : String
  extraPost : Bool
  status : OpStatus
deriving DecidableEq, Repr

/-- `ApplyResourceOperation.Type`. -/
def ApplyResourceOperation.Type (o : ApplyResourceOperation) : OpType :=
  if o.extraPost then .extraPostApplyR else .applyR

/-- `ApplyResourceOperation.ID`. -/
def ApplyResourceOperation.ID (o : ApplyResourceOperation) : String :=
  if o.extraPost then "extra-post-apply/" ++ o.resource else "apply/" ++ o.resource

/-- `ApplyResourceOperation.Empty` (`apply_resource_operation.go:84`). -/
def ApplyResourceOperation.Empty (_o : ApplyResourceOperation) : Bool :=
  false

/-- The vertex record an `ApplyResourceOperation` presents to the plan. -/
def ApplyResourceOperation.toOperation (o : ApplyResourceOperation) : Operation :=
  { id := o.ID, typ := o.Type, status := o.status, empty := o.Empty }

/-- The `Plan` graph: vertices keyed by `op.ID()` plus directed edges, as the
`dominikbraun/graph` store holds them. -/
structure Plan where
  vertices : List Operation
  edges : List (String × String)
deriving DecidableEq, Repr

/-- `NewPlan`: the empty acyclic directed graph. -/
def NewPlan : Plan :=
  { vertices := [], edges := [] }

/-- Vertex lookup by ID (`graph.Vertex` via `Plan.Operation`). -/
def Plan.vertex (p : Plan) (id : String) : Option Operation :=
  p.vertices.find? (fun op => op.id = id)

/-- Whether a vertex with this ID exists. -/
def Plan.hasVertex (p : Plan) (id : String) : Bool :=
  (p.vertex id).isSome

/-- Bounded reachability along edges: `reachF es n a b` is true when some
chain of at most `n` edges of `es` leads from `a` to `b` (reflexively).  This
is the cycle test of the graph store (`graph.CreatesCycle` checks whether the
edge target already reaches the edge source). -/
def reachF (es : List (String × String)) : Nat → String → String → Bool
  | 0, a, b => a = b
  | n + 1, a, b =>
    a = b || es.any (fun e => e.1 = a && reachF es n e.2 b)

/-- The errors of `graph.AddEdge` the plan code distinguishes. -/
inductive GraphErr where
  | vertexNotFound
  | edgeAlreadyExists
  | cycle
deriving DecidableEq, Repr

/-- `graph.AddEdge` on a directed graph built with `PreventCycles`: both
endpoints must exist, duplicate edges are rejected, and an edge whose target
already reaches its source is rejected as a cycle. -/
def Plan.addEdge (p : Plan) (a b : String) : Except GraphErr Plan :=
  if ¬ (p.hasVertex a ∧ p.hasVertex b) then
    .error .vertexNotFound
  else if (a, b) ∈ p.edges then
    .error .edgeAlreadyExists
  else if reachF p.edges p.edges.length b a then
    .error .cycle
  else
    .ok { p with edges := (a, b) :: p.edges }

/-- `Plan.AddOperation` (`plan.go:193`): insert by ID; an existing vertex is
kept (`ErrVertexAlreadyExists` is swallowed). -/
def Plan.addOperation (p : Plan) (op : Operation) : Plan :=
  if p.hasVertex op.id then p else { p with vertices := op :: p.vertices }

/-- `Plan.AddDependency` (`plan.go:239`): add an edge; a duplicate edge is a
successful no-op; other failures propagate. -/
def Plan.addDependency (p : Plan) (a b : String) : Except GraphErr Plan :=
  match p.addEdge a b with
  | .error .edgeAlreadyExists => .ok p
  | .error e => .error e
  | .ok p' => .ok p'

/-- The `if _, found := p.Operation(stageID); !found` step of the staged
insertions: create the stage marker unless the vertex already exists. -/
def Plan.stageAdd (p : Plan) (stageID : String) : Plan :=
  if p.hasVertex stageID then p else p.addOperation (NewStageOperation stageID)

/-- `Plan.AddStagedOperation` (`plan.go:200`): insert the operation, create
the two stage markers when missing, then add the spanning edge and the two
staging edges.  The Go code panics when an edge insertion fails
(`lo.Must0`); `none` models the panic. -/
def Plan.addStagedOperation (p : Plan) (op : Operation)
    (stageInID stageOutID : String) : Option Plan :=
  match (((p.addOperation op).stageAdd stageInID).stageAdd stageOutID).addDependency
      stageInID stageOutID with
  | .error _ => none
  | .ok p4 =>
    match p4.addDependency stageInID op.id with
    | .error _ => none
    | .ok p5 =>
      match p5.addDependency op.id stageOutID with
      | .error _ => none
      | .ok p6 => some p6

/-- `Plan.Operations` (`plan.go:61`): all vertices.  The Go function walks
the adjacency map, so its order is unspecified; the queries below are judged
by membership. -/
def Plan.operations (p : Plan) : List Operation :=
  p.vertices

/-- `Plan.CompletedOperations`. -/
def Plan.completedOperations (p : Plan) : List Operation :=
  p.operations.filter (fun op => op.status = .completed)

/-- `Plan.FailedOperations`. -/
def Plan.failedOperations (p : Plan) : List Operation :=
  p.operations.filter (fun op => op.status = .failed)

/-- `Plan.CanceledOperations`: operations still `unknown`. -/
def Plan.canceledOperations (p : Plan) : List Operation :=
  p.operations.filter (fun op => op.status = .unknown)

/-- The ten resource-mutating kinds `Plan.WorthyCompletedOperations` keeps. -/
def worthyCompletedType (t : OpType) : Bool :=
  match t with
  | .createR | .recreateR | .updateR | .applyR | .deleteR
  | .extraPostCreateR | .extraPostRecreateR | .extraPostApplyR
  | .extraPostUpdateR | .extraPostDeleteR => true
  | _ => false

/-- The five kinds `Plan.WorthyCanceledOperations` keeps (`plan.go:176`):
the base mutating kinds only, without the extra-post counterparts. -/
def worthyCanceledType (t : OpType) : Bool :=
  match t with
  | .createR | .recreateR | .updateR | .applyR | .deleteR => true
  | _ => false

/-- `Plan.WorthyCompletedOperations` (`plan.go:125`). -/
def Plan.worthyCompletedOperations (p : Plan) : List Operation :=
  p.completedOperations.filter (fun op => worthyCompletedType op.typ)

/-- `Plan.WorthyFailedOperations` (`plan.go:152`): every failed operation is
kept; the loop has no type switch. -/
def Plan.worthyFailedOperations (p : Plan) : List Operation :=
  p.failedOperations

/-- `Plan.WorthyCanceledOperations` (`plan.go:167`). -/
def Plan.worthyCanceledOperations (p : Plan) : List Operation :=
  p.canceledOperations.filter (fun op => worthyCanceledType op.typ)

/-- The kinds `Plan.Useless` inspects (`plan.go:298`): the ten mutating
kinds, `fail-release`, and the three trackers. -/
def uselessRelevantType (t : OpType) : Bool :=
  match t with
  | .createR | .recreateR | .updateR | .applyR | .deleteR
  | .failRelease
  | .trackReadiness | .trackPresence | .trackAbsence
  | .extraPostCreateR | .extraPostRecreateR | .extraPostApplyR
  | .extraPostUpdateR | .extraPostDeleteR => true
  | _ => false

/-- `Plan.Useless` (`plan.go:289`): true iff no inspected operation is
non-empty (an empty plan is useless). -/
def Plan.useless (p : Plan) : Bool :=
  p.operations.all (fun op => !(uselessRelevantType op.typ) || op.empty)

/-- `IsChain es a l b`: the vertices `a :: l` form a walk from `a` to `b`
along edges of `es`; `l` lists the vertices after `a`, the last one being
`b` (for `l = []` the walk is empty and `a = b`). -/
def IsChain (es : List (String × String)) : String → List String → String → Prop
  | a, [], b => a = b
  | a, v :: l, b => (a, v) ∈ es ∧ IsChain es v l b

/-- Acyclicity of an edge list: every closed walk is empty. -/
def Acyclic (es : List (String × String)) : Prop :=
  ∀ v l, IsChain es v l v → l = []

/-- The plans reachable from `NewPlan` by successful `AddOperation` /
`AddDependency` calls. -/
inductive PlanBuilt : Plan → Prop
  | nil : PlanBuilt NewPlan
  | addOp {p : Plan} (op : Operation) : PlanBuilt p → PlanBuilt (p.addOperation op)
  | addDep {p p' : Plan} {a b : String} :
      PlanBuilt p → p.addDependency a b = .ok p' → PlanBuilt p'

/-! ### Grouped push/pop log buffers (`pkg/log/logboek_logger.go`) -/

/-- One per-level stash: `map[string][]string`, group name to the messages
accumulated under it. -/
abbrev Stash := List (String × List String)

/-- Lookup of a group's buffer; a missing group reads as the empty slice, as
a Go map does. -/
def stashGet (s : Stash) (g : String) : List String :=
  ((s.find? (fun p => p.1 = g)).map (·.2)).getD []

/-- `stash[group] = append(stash[group], msg)`: the push transaction of
`TracePush`/`DebugPush`/`InfoPush`/`WarnPush`/`ErrorPush`. -/
def stashPush (s : Stash) (g msg : String) : Stash :=
  (g, stashGet s g ++ [msg]) :: s.filter (fun p => p.1 ≠ g)

/-- The pop transaction of `TracePop`/`DebugPop`/`InfoPop`/`WarnPop`/
`ErrorPop`: emit the group's messages in order (each is handed to the
level's log call), then delete the group.  Returns the emitted sequence and
the stash afterwards. -/
def stashPop (s : Stash) (g : String) : List String × Stash :=
  (stashGet s g, s.filter (fun p => p.1 ≠ g))

/-- A sequence of pushes to one group. -/
def stashPushAll (s : Stash) (g : String) (msgs : List String) : Stash :=
  msgs.foldl (fun acc m => stashPush acc g m) s

/-- The five per-level stashes of `LogboekLogger`. -/
structure LoggerStashes where
  traceStash : Stash
  debugStash : Stash
  infoStash : Stash
  warnStash : Stash
  errorStash : Stash
deriving DecidableEq

/-- `LogboekLogger.InfoPush`: only the info stash changes. -/
def LoggerStashes.infoPush (l : LoggerStashes) (g msg : String) : LoggerStashes :=
  { l with infoStash := stashPush l.infoStash g msg }

/-- `LogboekLogger.InfoPop`: flushes and clears the info group. -/
def LoggerStashes.infoPop (l : LoggerStashes) (g : String) :
    List String × LoggerStashes :=
  let (msgs, s) := stashPop l.infoStash g
  (msgs, { l with infoStash := s })

/-- `LogboekLogger.TracePush`. -/
def LoggerStashes.tracePush (l : LoggerStashes) (g msg : String) : LoggerStashes :=
  { l with traceStash := stashPush l.traceStash g msg }

/-- `LogboekLogger.TracePop`. -/
def LoggerStashes.tracePop (l : LoggerStashes) (g : String) :
    List String × LoggerStashes :=
  let (msgs, s) := stashPop l.traceStash g
  (msgs, { l with traceStash := s })

/-! ### Shared lemmas about the read cache -/

theorem cacheGet_set_self (c : ClusterCache) (k : String) (e : CacheEntry) :
    cacheGet (cacheSet c k e) k = some e := by
  simp [cacheGet, cacheSet, List.find?]

theorem find?_filter_ne_none (c : ClusterCache) (k : String) :
    (c.filter (fun p => p.1 ≠ k)).find? (fun p => p.1 = k) = none := by
  rw [List.find?_eq_none]
  intro x hx
  simp only [List.mem_filter, decide_not] at hx
  simpa using hx.2

theorem cacheGet_delete_self (c : ClusterCache) (k : String) :
    cacheGet (cacheDelete c k) k = none := by
  simp [cacheGet, cacheDelete, find?_filter_ne_none]

/-- Claim C1: `Get` with `TryCache=true` returns the cached entry for the
resource's `VersionID` without an RPC (a cached error included); a successful
non-dry-run `Create`, `Apply` or `MergePatch` leaves the mutation's returned
object in the cache entry, and a subsequent `Get` with `TryCache=true`
returns that object without an RPC. -/
theorem get_cache_coherent (cache : ClusterCache) (r : Resource)
    (resolve resolve' : Option KErr) (rpcRes rpcRes' : Except KErr Nat)
    (o : Nat) (e : KErr) :
    (cacheGet cache r.versionID = some (.obj o) →
      kubeGet cache r true resolve rpcRes = ⟨.ok o, cache, false⟩) ∧
    (cacheGet cache r.versionID = some (.err e) →
      kubeGet cache r true resolve rpcRes = ⟨.error e, cache, false⟩) ∧
    (cacheGet (kubeCreate cache r none (.ok o)).cache r.versionID = some (.obj o) ∧
      kubeGet (kubeCreate cache r none (.ok o)).cache r true resolve' rpcRes' =
        ⟨.ok o, (kubeCreate cache r none (.ok o)).cache, false⟩) ∧
    (cacheGet (kubeApply cache r false none (.ok o)).cache r.versionID = some (.obj o) ∧
      kubeGet (kubeApply cache r false none (.ok o)).cache r true resolve' rpcRes' =
        ⟨.ok o, (kubeApply cache r false none (.ok o)).cache, false⟩) ∧
    (cacheGet (kubeMergePatch cache r none (.ok o)).cache r.versionID = some (.obj o) ∧
      kubeGet (kubeMergePatch cache r none (.ok o)).cache r true resolve' rpcRes' =
        ⟨.ok o, (kubeMergePatch cache r none (.ok o)).cache, false⟩) := by
  refine ⟨fun h => by simp [kubeGet, h], fun h => by simp [kubeGet, h], ?_, ?_, ?_⟩
  all_goals
    constructor
    · simp [kubeCreate, kubeApply, kubeMergePatch, cacheGet_set_self]
    · simp [kubeGet, kubeCreate, kubeApply, kubeMergePatch, cacheGet_set_self]

theorem get_cache_coherent_witness :
    kubeGet [("v1/ConfigMap/ns/cm", CacheEntry.obj 7)] ⟨"v1/ConfigMap/ns/cm", false⟩
      true none (.ok 9) =
      ⟨.ok 7, [("v1/ConfigMap/ns/cm", CacheEntry.obj 7)], false⟩ ∧
    kubeGet [("v1/Secret/ns/s", CacheEntry.err ⟨true, 0⟩)] ⟨"v1/Secret/ns/s", false⟩
      true none (.ok 9) =
      ⟨.error ⟨true, 0⟩, [("v1/Secret/ns/s", CacheEntry.err ⟨true, 0⟩)], false⟩ := by
  constructor
  · exact (get_cache_coherent [("v1/ConfigMap/ns/cm", CacheEntry.obj 7)]
      ⟨"v1/ConfigMap/ns/cm", false⟩ none none (.ok 9) (.ok 9) 7 ⟨true, 0⟩).1 (by decide)
  · exact (get_cache_coherent [("v1/Secret/ns/s", CacheEntry.err ⟨true, 0⟩)]
      ⟨"v1/Secret/ns/s", false⟩ none none (.ok 9) (.ok 9) 7 ⟨true, 0⟩).2.1 (by decide)

/-- Claim C4: `Delete` defaults to foreground propagation, turns a cluster
`NotFound` into a benign no-op, and on an accepted deletion removes the cache
entry; `MergePatch` turns `NotFound` into `(nil, nil)` without touching the
cache and caches the object on any other success; `Get`, `Create` and `Apply`
surface a `NotFound` as an error. -/
theorem delete_mergepatch_notfound (cache : ClusterCache) (r : Resource)
    (p : Propagation) (rpcDel : Option KErr) (code o : Nat) (dry : Bool) :
    ((kubeDelete cache r none none rpcDel).policyUsed = some .foreground ∧
      (kubeDelete cache r (some p) none rpcDel).policyUsed = some p) ∧
    ((kubeDelete cache r none none (some ⟨true, code⟩)).result = .ok ()) ∧
    ((kubeDelete cache r none none none).result = .ok () ∧
      cacheGet (kubeDelete cache r none none none).cache r.versionID = none) ∧
    (kubeMergePatch cache r none (.error ⟨true, code⟩) = ⟨.ok none, cache⟩) ∧
    ((kubeMergePatch cache r none (.ok o)).result = .ok (some o) ∧
      cacheGet (kubeMergePatch cache r none (.ok o)).cache r.versionID =
        some (.obj o)) ∧
    ((kubeGet cache r false none (.error ⟨true, code⟩)).result = .error ⟨true, code⟩ ∧
      (kubeCreate cache r none (.error ⟨true, code⟩)).result = .error ⟨true, code⟩ ∧
      (kubeApply cache r dry none (.error ⟨true, code⟩)).result = .error ⟨true, code⟩) := by
  refine ⟨⟨?_, ?_⟩, ?_, ⟨?_, ?_⟩, ?_, ⟨?_, ?_⟩, ?_, ?_, ?_⟩
  · cases rpcDel with
    | none => rfl
    | some e =>
      simp only [kubeDelete, Option.getD]
      by_cases h : e.notFound <;> simp [h]
  · cases rpcDel with
    | none => rfl
    | some e =>
      simp only [kubeDelete, Option.getD]
      by_cases h : e.notFound <;> simp [h]
  · simp [kubeDelete]
  · rfl
  · simp [kubeDelete, cacheGet_delete_self]
  · simp [kubeMergePatch]
  · simp [kubeMergePatch]
  · simp [kubeMergePatch, cacheGet_set_self]
  · rfl
  · rfl
  · cases dry <;> rfl

/-- Claim C5: `Apply` with `DryRun=true` issues the RPC with the dry-run
directive and, whether it succeeds or fails, leaves the read cache unchanged
and never resets the mapper, CRD or not; a successful non-dry-run `Apply` or
`Create` of a CRD resets the mapper, and a failed one does not. -/
theorem apply_dryrun_frame (cache : ClusterCache) (r : Resource)
    (resolve : Option KErr) (rpcRes : Except KErr Nat)
    (vid : String) (o : Nat) (e : KErr) :
    ((kubeApply cache r true resolve rpcRes).cache = cache ∧
      (kubeApply cache r true resolve rpcRes).mapperReset = false) ∧
    ((kubeApply cache r true none rpcRes).call =
      some { dryRun := ["All"], force := true, fieldManager := "nelm" }) ∧
    ((kubeApply cache ⟨vid, true⟩ false none (.ok o)).mapperReset = true ∧
      (kubeCreate cache ⟨vid, true⟩ none (.ok o)).mapperReset = true) ∧
    ((kubeApply cache ⟨vid, true⟩ false none (.error e)).mapperReset = false ∧
      (kubeCreate cache ⟨vid, true⟩ none (.error e)).mapperReset = false) := by
  refine ⟨⟨?_, ?_⟩, ?_, ⟨?_, ?_⟩, ?_, ?_⟩
  · cases resolve with
    | some e' => rfl
    | none => cases rpcRes <;> simp [kubeApply]
  · cases resolve with
    | some e' => rfl
    | none => cases rpcRes <;> simp [kubeApply]
  · cases rpcRes <;> rfl
  · rfl
  · rfl
  · rfl
  · rfl

/-- Claim C2, counterexample: `Fail` on a fresh release (status `unknown`,
both timestamps zero) leaves `unknown` yet sets neither `firstDeployed` nor
`lastDeployed` — so not every transition out of `unknown` sets
`firstDeployed`, and not every transition updates `lastDeployed`. -/
theorem fail_leaves_timestamps :
    (Release.fail ⟨"demo", "ns", 1, .unknown, 0, 0, ""⟩).status ≠ HelmStatus.unknown ∧
    (Release.fail ⟨"demo", "ns", 1, .unknown, 0, 0, ""⟩).firstDeployed = 0 ∧
    (Release.fail ⟨"demo", "ns", 1, .unknown, 0, 0, ""⟩).lastDeployed = 0 := by
  refine ⟨?_, rfl, rfl⟩
  decide

/-- Claim C2, amended: only `Pend` touches the timestamps — it sets
`firstDeployed` when the release has never been deployed (zero value) and
always sets `lastDeployed` to the current instant — while `Fail`, `Succeed`,
`Supersede` and `Skip` change only the status and leave both timestamps
unchanged. -/
theorem pend_sets_timestamps (r : Release) (dt : DeployType) (now : Nat) :
    ((r.pend dt now).lastDeployed = now ∧
      (r.pend dt now).firstDeployed =
        (if r.firstDeployed = 0 then now else r.firstDeployed)) ∧
    (r.fail.firstDeployed = r.firstDeployed ∧ r.fail.lastDeployed = r.lastDeployed ∧
      r.fail.status = .failed) ∧
    (r.succeed.firstDeployed = r.firstDeployed ∧
      r.succeed.lastDeployed = r.lastDeployed ∧ r.succeed.status = .deployed) ∧
    (r.supersede.firstDeployed = r.firstDeployed ∧
      r.supersede.lastDeployed = r.lastDeployed ∧ r.supersede.status = .superseded) ∧
    (r.skip.firstDeployed = r.firstDeployed ∧
      r.skip.lastDeployed = r.lastDeployed ∧ r.skip.status = .skipped) :=
  ⟨⟨rfl, rfl⟩, ⟨rfl, rfl, rfl⟩, ⟨rfl, rfl, rfl⟩, ⟨rfl, rfl, rfl⟩, ⟨rfl, rfl, rfl⟩⟩

/-- Claim C8: `Succeeded` holds exactly on `deployed`, `superseded` and
`uninstalled`; `Failed` exactly on `failed`, `unknown`, the three pending
states and `uninstalling`; a `skipped` release is in neither set. -/
theorem succeeded_failed_partition (r : Release) :
    r.succeededB = (r.status = .deployed ∨ r.status = .superseded ∨
      r.status = .uninstalled : Bool) ∧
    r.failedB = (r.status = .failed ∨ r.status = .unknown ∨
      r.status = .pendingInstall ∨ r.status = .pendingUpgrade ∨
      r.status = .pendingRollback ∨ r.status = .uninstalling : Bool) ∧
    (!r.succeededB && !r.failedB) = (r.status = .skipped : Bool) := by
  obtain ⟨n, ns, rev, st, fd, ld, notes⟩ := r
  cases st <;> exact ⟨rfl, rfl, rfl⟩

/-- Claim C3, counterexample: a failed stage marker is returned by
`WorthyFailedOperations` although its kind is not resource-mutating, and a
canceled extra-post apply operation is dropped by `WorthyCanceledOperations`
although its kind is resource-mutating — so the Worthy variants do not all
restrict to the resource-mutating kinds. -/
theorem worthy_variants_filter_differently :
    Plan.worthyFailedOperations ⟨[⟨"stage/pre-install", .stage, .failed, true⟩], []⟩ =
      [⟨"stage/pre-install", .stage, .failed, true⟩] ∧
    worthyCompletedType OpType.stage = false ∧
    Plan.worthyCanceledOperations
      ⟨[⟨"extra-post-apply/v1/ConfigMap/ns/cm", .extraPostApplyR, .unknown, false⟩], []⟩ =
      [] ∧
    worthyCompletedType OpType.extraPostApplyR = true := by
  refine ⟨?_, rfl, ?_, rfl⟩ <;> decide

/-- Claim C3, amended: `WorthyCompletedOperations` returns exactly the
completed operations whose kind is one of the ten resource-mutating kinds
(create, recreate, update, apply, delete and their extra-post counterparts);
`WorthyFailedOperations` returns every failed operation regardless of kind;
`WorthyCanceledOperations` returns exactly the unknown-status operations
whose kind is one of the five base mutating kinds, the extra-post
counterparts excluded. -/
theorem worthy_queries_characterized (p : Plan) (op : Operation) :
    (op ∈ p.worthyCompletedOperations ↔
      op ∈ p.operations ∧ op.status = .completed ∧ worthyCompletedType op.typ = true) ∧
    (op ∈ p.worthyFailedOperations ↔ op ∈ p.operations ∧ op.status = .failed) ∧
    (op ∈ p.worthyCanceledOperations ↔
      op ∈ p.operations ∧ op.status = .unknown ∧ worthyCanceledType op.typ = true) := by
  refine ⟨?_, ?_, ?_⟩ <;>
    simp [Plan.worthyCompletedOperations, Plan.worthyFailedOperations,
      Plan.worthyCanceledOperations, Plan.completedOperations, Plan.failedOperations,
      Plan.canceledOperations, List.mem_filter, and_assoc] <;>
    exact fun _ => and_comm

theorem worthy_queries_characterized_witness :
    (⟨"apply/v1/ConfigMap/ns/cm", .applyR, .completed, false⟩ : Operation) ∈
      Plan.worthyCompletedOperations
        ⟨[⟨"apply/v1/ConfigMap/ns/cm", .applyR, .completed, false⟩], []⟩ :=
  (worthy_queries_characterized
    ⟨[⟨"apply/v1/ConfigMap/ns/cm", .applyR, .completed, false⟩], []⟩
    ⟨"apply/v1/ConfigMap/ns/cm", .applyR, .completed, false⟩).1.mpr
    ⟨by decide, rfl, rfl⟩

/-- Claim C10: `ApplyResourceOperation.Empty` is unconditionally false, so
any plan holding an apply operation — server-side diff empty or not — is
never reported `Useless`. -/
theorem apply_operation_never_empty (o : ApplyResourceOperation) (p : Plan)
    (hmem : o.toOperation ∈ p.vertices) :
    o.Empty = false ∧ p.useless = false := by
  refine ⟨rfl, ?_⟩
  cases h : p.operations.all (fun op => !(uselessRelevantType op.typ) || op.empty) with
  | false => simpa [Plan.useless] using h
  | true =>
    exfalso
    have := List.all_eq_true.mp h o.toOperation hmem
    rcases o with ⟨res, ep, st⟩
    cases ep <;> simp [ApplyResourceOperation.toOperation, ApplyResourceOperation.Type,
      ApplyResourceOperation.Empty, uselessRelevantType] at this

theorem apply_operation_never_empty_witness :
    ApplyResourceOperation.Empty ⟨"v1/ConfigMap/ns/cm", false, .unknown⟩ = false ∧
    Plan.useless
      ⟨[ApplyResourceOperation.toOperation ⟨"v1/ConfigMap/ns/cm", false, .unknown⟩], []⟩ =
      false :=
  apply_operation_never_empty ⟨"v1/ConfigMap/ns/cm", false, .unknown⟩
    ⟨[ApplyResourceOperation.toOperation ⟨"v1/ConfigMap/ns/cm", false, .unknown⟩], []⟩
    (by decide)

/-! ### Shared lemmas about the grouped log buffers -/

theorem find?_filter_key_ne {α : Type} (s : List (String × α)) (k : String) :
    (s.filter (fun p => p.1 ≠ k)).find? (fun p => p.1 = k) = none := by
  rw [List.find?_eq_none]
  intro x hx
  simp only [List.mem_filter, decide_not] at hx
  simpa using hx.2

theorem stashGet_push_self (s : Stash) (g m : String) :
    stashGet (stashPush s g m) g = stashGet s g ++ [m] := by
  simp [stashGet, stashPush, List.find?]

theorem stashGet_push_ne (s : Stash) (g g' m : String) (h : g ≠ g') :
    stashGet (stashPush s g m) g' = stashGet s g' := by
  simp only [stashGet, stashPush, List.find?]
  have hgg : (decide (g = g')) = false := by simpa using h
  rw [hgg]
  simp only [Bool.false_eq_true, if_false]
  congr 1
  induction s with
  | nil => rfl
  | cons hd tl ih =>
    by_cases hk : hd.1 = g
    · have h1 : (decide (hd.1 ≠ g)) = false := by simpa using hk
      have h2 : (decide (hd.1 = g')) = false := by
        simp only [decide_eq_false_iff_not]
        rw [hk]; exact h
      simp only [List.filter, h1, List.find?, h2]
      exact ih
    · have h1 : (decide (hd.1 ≠ g)) = true := by simpa using hk
      simp only [List.filter, h1, List.find?]
      cases hd2 : (decide (hd.1 = g')) with
      | true => rfl
      | false => exact ih

theorem stashGet_erased (s : Stash) (g : String) :
    stashGet (s.filter (fun p => p.1 ≠ g)) g = [] := by
  simp only [stashGet]
  rw [find?_filter_key_ne]
  rfl

theorem stashGet_erase_ne (s : Stash) (g g' : String) (h : g ≠ g') :
    stashGet (s.filter (fun p => p.1 ≠ g)) g' = stashGet s g' := by
  simp only [stashGet]
  congr 1
  induction s with
  | nil => rfl
  | cons hd tl ih =>
    by_cases hk : hd.1 = g
    · have h1 : (decide (hd.1 ≠ g)) = false := by simpa using hk
      have h2 : (decide (hd.1 = g')) = false := by
        simp only [decide_eq_false_iff_not]
        rw [hk]; exact h
      simp only [List.filter, h1, List.find?, h2]
      exact ih
    · have h1 : (decide (hd.1 ≠ g)) = true := by simpa using hk
      simp only [List.filter, h1, List.find?]
      cases hd2 : (decide (hd.1 = g')) with
      | true => rfl
      | false => exact ih

theorem stashGet_pushAll (s : Stash) (g : String) (msgs : List String) :
    stashGet (stashPushAll s g msgs) g = stashGet s g ++ msgs := by
  induction msgs generalizing s with
  | nil => simp [stashPushAll]
  | cons m msgs ih =>
    simp only [stashPushAll, List.foldl_cons] at *
    rw [ih (stashPush s g m), stashGet_push_self, List.append_assoc]
    rfl

theorem infoPush_foldl (L : LoggerStashes) (g : String) (msgs : List String) :
    (msgs.foldl (fun acc m' => acc.infoPush g m') L).infoStash =
      stashPushAll L.infoStash g msgs := by
  induction msgs generalizing L with
  | nil => rfl
  | cons m msgs ih =>
    simp only [List.foldl_cons, stashPushAll] at *
    rw [ih]
    rfl

theorem tracePush_foldl (L : LoggerStashes) (g : String) (msgs : List String) :
    (msgs.foldl (fun acc m' => acc.tracePush g m') L).traceStash =
      stashPushAll L.traceStash g msgs := by
  induction msgs generalizing L with
  | nil => rfl
  | cons m msgs ih =>
    simp only [List.foldl_cons, stashPushAll] at *
    rw [ih]
    rfl

/-- Claim C9: popping a group emits exactly the messages pushed to that
group, in push order, and deletes the group, so a second pop of the same
group emits nothing; a push to one group never alters another group's
buffer; each level's push/pop works on its own stash only (stated for the
info and trace levels, whose push/pop the sources show). -/
theorem grouped_push_pop (s : Stash) (L : LoggerStashes) (g g' m : String)
    (msgs : List String) (hne : g ≠ g') :
    ((stashPop (stashPushAll s g msgs) g).1 = stashGet s g ++ msgs) ∧
    ((stashPop ((stashPop s g).2) g).1 = []) ∧
    (stashGet (stashPush s g m) g' = stashGet s g' ∧
      stashGet ((stashPop s g).2) g' = stashGet s g') ∧
    ((LoggerStashes.infoPop (msgs.foldl (fun acc m' => acc.infoPush g m') L) g).1 =
        stashGet L.infoStash g ++ msgs ∧
      (L.infoPush g m).traceStash = L.traceStash ∧
      (L.infoPush g m).debugStash = L.debugStash ∧
      (L.infoPush g m).warnStash = L.warnStash ∧
      (L.infoPush g m).errorStash = L.errorStash) ∧
    ((LoggerStashes.tracePop (msgs.foldl (fun acc m' => acc.tracePush g m') L) g).1 =
        stashGet L.traceStash g ++ msgs ∧
      (L.tracePush g m).infoStash = L.infoStash) := by
  refine ⟨?_, ?_, ⟨?_, ?_⟩, ⟨?_, rfl, rfl, rfl, rfl⟩, ⟨?_, rfl⟩⟩
  · simpa [stashPop] using stashGet_pushAll s g msgs
  · simpa [stashPop] using stashGet_erased (s.filter (fun p => p.1 ≠ g)) g
  · exact stashGet_push_ne s g g' m hne
  · simpa [stashPop] using stashGet_erase_ne s g g' hne
  · simp only [LoggerStashes.infoPop, stashPop, infoPush_foldl]
    exact stashGet_pushAll L.infoStash g msgs
  · simp only [LoggerStashes.tracePop, stashPop, tracePush_foldl]
    exact stashGet_pushAll L.traceStash g msgs

theorem grouped_push_pop_witness :
    (stashPop (stashPushAll [] "deploy" ["a", "b"]) "deploy").1 =
      stashGet ([] : Stash) "deploy" ++ ["a", "b"] ∧
    stashGet (stashPush [] "deploy" "a") "other" = stashGet ([] : Stash) "other" := by
  have h := grouped_push_pop [] ⟨[], [], [], [], []⟩ "deploy" "other" "a" ["a", "b"]
    (by decide)
  exact ⟨h.1, h.2.2.1.1⟩

/-! ### Shared lemmas about chains, reachability and acyclicity -/

theorem isChain_append {es : List (String × String)} {a b c : String}
    {l1 l2 : List String} (h1 : IsChain es a l1 b) (h2 : IsChain es b l2 c) :
    IsChain es a (l1 ++ l2) c := by
  induction l1 generalizing a with
  | nil =>
    have ha : a = b := h1
    rw [List.nil_append, ha]
    exact h2
  | cons v l ih =>
    obtain ⟨he, hc⟩ := h1
    exact ⟨he, ih hc⟩

theorem isChain_weaken {es : List (String × String)} {e : String × String}
    {a b : String} {l : List String} (h : IsChain es a l b) :
    IsChain (e :: es) a l b := by
  induction l generalizing a with
  | nil => exact h
  | cons v l ih =>
    obtain ⟨he, hc⟩ := h
    exact ⟨List.mem_cons_of_mem e he, ih hc⟩

theorem reachF_refl (es : List (String × String)) (n : Nat) (a : String) :
    reachF es n a a = true := by
  cases n <;> simp [reachF]

theorem reachF_sound (es : List (String × String)) :
    ∀ (n : Nat) (a b : String), reachF es n a b = true →
      ∃ l, IsChain es a l b := by
  intro n
  induction n with
  | zero =>
    intro a b h
    have hab : a = b := by simpa [reachF] using h
    exact ⟨[], hab⟩
  | succ n ih =>
    intro a b h
    simp only [reachF, Bool.or_eq_true, decide_eq_true_eq, List.any_eq_true,
      Bool.and_eq_true] at h
    rcases h with hab | ⟨e, hmem, h1, h2⟩
    · exact ⟨[], hab⟩
    · obtain ⟨l, hl⟩ := ih e.2 b h2
      refine ⟨e.2 :: l, ?_, hl⟩
      have : e = (a, e.2) := by
        rcases e with ⟨x, y⟩
        simp only [decide_eq_true_eq] at h1
        simp [h1]
      rwa [this] at hmem

theorem reachF_of_chain (es : List (String × String)) :
    ∀ (l : List String) (n : Nat) (a b : String), l.length ≤ n →
      IsChain es a l b → reachF es n a b = true := by
  intro l
  induction l with
  | nil =>
    intro n a b _ h
    have hab : a = b := h
    rw [hab]
    exact reachF_refl es n b
  | cons v l ih =>
    intro n a b hlen h
    obtain ⟨he, hc⟩ := h
    cases n with
    | zero => simp at hlen
    | succ n =>
      simp only [List.length_cons, Nat.succ_le_succ_iff] at hlen
      simp only [reachF, Bool.or_eq_true, List.any_eq_true, Bool.and_eq_true]
      right
      exact ⟨(a, v), he, by simp, ih n v b hlen hc⟩

theorem chain_mem_suffix {es : List (String × String)} :
    ∀ (l : List String) (a b x : String), IsChain es a l b → x ∈ l →
      ∃ l2, IsChain es x l2 b ∧ l2.length < l.length ∧ l2 ⊆ l := by
  intro l
  induction l with
  | nil =>
    intro a b x _ hx
    cases hx
  | cons v l ih =>
    intro a b x h hx
    obtain ⟨he, hc⟩ := h
    rcases List.mem_cons.mp hx with hxv | hxl
    · refine ⟨l, ?_, by simp, List.subset_cons_self v l⟩
      rwa [hxv]
    · obtain ⟨l2, h2, hlen, hsub⟩ := ih v b x hc hxl
      exact ⟨l2, h2, Nat.lt_succ_of_lt hlen,
        List.Subset.trans hsub (List.subset_cons_self v l)⟩

theorem chain_shorten {es : List (String × String)} {b : String} :
    ∀ (n : Nat) (l : List String) (a : String), l.length ≤ n →
      IsChain es a l b →
      ∃ l', IsChain es a l' b ∧ (a :: l').Nodup ∧ l' ⊆ l ∧ l'.length ≤ l.length := by
  intro n
  induction n with
  | zero =>
    intro l a hlen h
    have hl : l = [] := List.length_eq_zero.mp (Nat.le_zero.mp hlen)
    subst hl
    exact ⟨[], h, List.nodup_singleton a, List.Subset.refl _, Nat.le_refl _⟩
  | succ n ih =>
    intro l a hlen h
    by_cases ha : a ∈ l
    · obtain ⟨l2, h2, hlt, hsub⟩ := chain_mem_suffix l a b a h ha
      have hlen2 : l2.length ≤ n := by
        have := Nat.lt_of_lt_of_le hlt hlen
        exact Nat.lt_succ_iff.mp this
      obtain ⟨l', h', hnd, hsub', hle⟩ := ih l2 a hlen2 h2
      exact ⟨l', h', hnd, List.Subset.trans hsub' hsub,
        Nat.le_trans hle (Nat.le_of_lt hlt)⟩
    · cases l with
      | nil => exact ⟨[], h, List.nodup_singleton a, List.Subset.refl _, Nat.le_refl _⟩
      | cons v l =>
        obtain ⟨he, hc⟩ := h
        simp only [List.length_cons, Nat.succ_le_succ_iff] at hlen
        obtain ⟨l'', h'', hnd'', hsub'', hle''⟩ := ih l v hlen hc
        refine ⟨v :: l'', ⟨he, h''⟩, ?_, ?_, by simpa using hle''⟩
        · refine List.Nodup.cons ?_ hnd''
          intro hmem
          apply ha
          rcases List.mem_cons.mp hmem with h1 | h1
          · rw [h1]; exact List.mem_cons_self v l
          · exact List.mem_cons_of_mem v (hsub'' h1)
        · intro x hx
          rcases List.mem_cons.mp hx with h1 | h1
          · rw [h1]; exact List.mem_cons_self v l
          · exact List.mem_cons_of_mem v (hsub'' h1)

theorem chain_subset_targets {es : List (String × String)} {b : String} :
    ∀ (l : List String) (a : String), IsChain es a l b →
      l ⊆ es.map Prod.snd := by
  intro l
  induction l with
  | nil => intro a _ x hx; cases hx
  | cons v l ih =>
    intro a h x hx
    obtain ⟨he, hc⟩ := h
    rcases List.mem_cons.mp hx with h1 | h1
    · rw [h1]
      exact List.mem_map.mpr ⟨(a, v), he, rfl⟩
    · exact ih v hc h1

theorem chain_complete {es : List (String × String)} {a b : String}
    {l : List String} (h : IsChain es a l b) :
    reachF es es.length a b = true := by
  obtain ⟨l', h', hnd, _, _⟩ := chain_shorten l.length l a (Nat.le_refl _) h
  have hsub : l' ⊆ es.map Prod.snd := chain_subset_targets l' a h'
  have hlen : l'.length ≤ es.length := by
    have hnd' : l'.Nodup := hnd.of_cons
    have := (List.subperm_of_subset hnd' hsub).length_le
    simpa using this
  exact reachF_of_chain es l' es.length a b hlen h'

theorem chain_ext_decompose {es : List (String × String)} {a b : String} :
    ∀ (l : List String) (x y : String), IsChain ((a, b) :: es) x l y →
      IsChain es x l y ∨
        ∃ l1 l2, IsChain es x l1 a ∧ IsChain ((a, b) :: es) b l2 y ∧
          l2.length < l.length := by
  intro l
  induction l with
  | nil => intro x y h; exact Or.inl h
  | cons v l ih =>
    intro x y h
    obtain ⟨he, hc⟩ := h
    rcases List.mem_cons.mp he with h1 | h1
    · obtain ⟨hx, hv⟩ := Prod.mk.injEq .. ▸ h1
      right
      refine ⟨[], l, hx, ?_, by simp⟩
      rwa [hv] at hc
    · rcases ih v y hc with hp | ⟨l1, l2, hc1, hc2, hlt⟩
      · exact Or.inl ⟨h1, hp⟩
      · exact Or.inr ⟨v :: l1, l2, ⟨h1, hc1⟩, hc2, Nat.lt_succ_of_lt hlt⟩

theorem acyclic_nil : Acyclic [] := by
  intro v l h
  cases l with
  | nil => rfl
  | cons w l => exact absurd h.1 (List.not_mem_nil _)

theorem acyclic_cons {es : List (String × String)} {a b : String}
    (hac : Acyclic es) (hnr : ∀ l, ¬ IsChain es b l a) :
    Acyclic ((a, b) :: es) := by
  intro v l h
  rcases chain_ext_decompose l v v h with hp | ⟨l1, l2, hc1, hc2, _⟩
  · exact hac v l hp
  · exfalso
    have hba : IsChain ((a, b) :: es) b (l2 ++ l1) a :=
      isChain_append hc2 (isChain_weaken hc1)
    rcases chain_ext_decompose (l2 ++ l1) b a hba with hp' | ⟨l1', _, hc1', _, _⟩
    · exact hnr _ hp'
    · exact hnr _ hc1'

/-! ### Shared lemmas about the plan graph operations -/

theorem edges_addOperation (p : Plan) (op : Operation) :
    (p.addOperation op).edges = p.edges := by
  unfold Plan.addOperation
  split <;> rfl

theorem addDependency_ok (p p' : Plan) (a b : String)
    (h : p.addDependency a b = .ok p') :
    (p' = p ∧ (a, b) ∈ p.edges) ∨
      (p'.vertices = p.vertices ∧ p'.edges = (a, b) :: p.edges ∧
        reachF p.edges p.edges.length b a = false) := by
  unfold Plan.addDependency Plan.addEdge at h
  split_ifs at h with h1 h2 h3
  all_goals simp at h
  all_goals
    first
      | (left; exact ⟨h.symm, h2⟩)
      | (right; rw [← h]; exact ⟨rfl, rfl, by simpa using h3⟩)

theorem planBuilt_acyclic {p : Plan} (h : PlanBuilt p) : Acyclic p.edges := by
  induction h with
  | nil => exact acyclic_nil
  | addOp op _ ih => rw [edges_addOperation]; exact ih
  | addDep hb hok ih =>
    rcases addDependency_ok _ _ _ _ hok with ⟨heq, _⟩ | ⟨_, he, hr⟩
    · rw [heq]; exact ih
    · rw [he]
      refine acyclic_cons ih ?_
      intro l hchain
      have ht := chain_complete hchain
      rw [ht] at hr
      cases hr

/-- Claim C7: with both vertices present, `AddDependency` of an existing
edge succeeds without changing the graph; when the target already reaches
the source (so the edge would close a cycle) it returns the cycle error and
produces no graph; and every plan built from `NewPlan` by successful
`AddOperation`/`AddDependency` calls is acyclic. -/
theorem addDependency_contract (p : Plan) (a b : String) (l : List String) :
    (p.hasVertex a = true → p.hasVertex b = true → (a, b) ∈ p.edges →
      p.addDependency a b = .ok p) ∧
    (p.hasVertex a = true → p.hasVertex b = true → (a, b) ∉ p.edges →
      IsChain p.edges b l a → p.addDependency a b = .error .cycle) ∧
    (PlanBuilt p → Acyclic p.edges) := by
  refine ⟨?_, ?_, planBuilt_acyclic⟩
  · intro ha hb hmem
    unfold Plan.addDependency Plan.addEdge
    rw [if_neg (fun hc => hc ⟨ha, hb⟩), if_pos hmem]
  · intro ha hb hmem hchain
    unfold Plan.addDependency Plan.addEdge
    rw [if_neg (fun hc => hc ⟨ha, hb⟩), if_neg hmem, if_pos (chain_complete hchain)]

theorem addDependency_contract_witness :
    Plan.addDependency ⟨[NewStageOperation "b", NewStageOperation "a"], [("a", "b")]⟩
      "a" "b" = .ok ⟨[NewStageOperation "b", NewStageOperation "a"], [("a", "b")]⟩ ∧
    Plan.addDependency ⟨[NewStageOperation "b", NewStageOperation "a"], [("a", "b")]⟩
      "b" "a" = .error .cycle ∧
    Acyclic (Plan.addOperation NewPlan (NewStageOperation "s")).edges := by
  refine ⟨?_, ?_, ?_⟩
  · exact (addDependency_contract
      ⟨[NewStageOperation "b", NewStageOperation "a"], [("a", "b")]⟩ "a" "b" []).1
      (by decide) (by decide) (by decide)
  · exact (addDependency_contract
      ⟨[NewStageOperation "b", NewStageOperation "a"], [("a", "b")]⟩ "b" "a" ["b"]).2.1
      (by decide) (by decide) (by decide) ⟨by decide, rfl⟩
  · exact (addDependency_contract (Plan.addOperation NewPlan (NewStageOperation "s"))
      "x" "y" []).2.2 (PlanBuilt.addOp _ PlanBuilt.nil)

theorem vertex_addOperation_ne (p : Plan) (op : Operation) (x : String)
    (h : op.id ≠ x) : (p.addOperation op).vertex x = p.vertex x := by
  unfold Plan.addOperation
  split
  · rfl
  · simp [Plan.vertex, List.find?_cons, h]

theorem vertex_addOperation_self (p : Plan) (op : Operation)
    (h : p.hasVertex op.id = false) :
    (p.addOperation op).vertex op.id = some op := by
  unfold Plan.addOperation
  rw [if_neg (by simp [h])]
  simp [Plan.vertex, List.find?_cons]

theorem hasVertex_addOperation_self (p : Plan) (op : Operation) :
    (p.addOperation op).hasVertex op.id = true := by
  unfold Plan.addOperation
  split
  next hc => exact hc
  next hc => simp [Plan.hasVertex, Plan.vertex, List.find?_cons]

theorem hasVertex_addOperation_ne (p : Plan) (op : Operation) (x : String)
    (h : op.id ≠ x) : (p.addOperation op).hasVertex x = p.hasVertex x := by
  unfold Plan.hasVertex
  rw [vertex_addOperation_ne p op x h]

theorem hasVertex_addOperation_mono (p : Plan) (op : Operation) (x : String)
    (h : p.hasVertex x = true) : (p.addOperation op).hasVertex x = true := by
  by_cases hid : op.id = x
  · rw [← hid] at h ⊢
    exact hasVertex_addOperation_self p op
  · rw [hasVertex_addOperation_ne p op x hid]
    exact h

theorem hasVertex_of_vertex_some (p : Plan) (x : String) (op : Operation)
    (h : p.vertex x = some op) : p.hasVertex x = true := by
  unfold Plan.hasVertex
  rw [h]
  rfl

theorem stageAdd_of_hasVertex (p : Plan) (x : String) (h : p.hasVertex x = true) :
    p.stageAdd x = p := by
  unfold Plan.stageAdd
  exact if_pos h

theorem stageAdd_hasVertex_self (p : Plan) (x : String) :
    (p.stageAdd x).hasVertex x = true := by
  unfold Plan.stageAdd
  split
  next hc => exact hc
  next hc => exact hasVertex_addOperation_self p (NewStageOperation x)

theorem stageAdd_hasVertex_mono (p : Plan) (x y : String)
    (h : p.hasVertex y = true) : (p.stageAdd x).hasVertex y = true := by
  unfold Plan.stageAdd
  split
  · exact h
  · exact hasVertex_addOperation_mono p (NewStageOperation x) y h

theorem stageAdd_vertex_ne (p : Plan) (x y : String) (h : x ≠ y) :
    (p.stageAdd x).vertex y = p.vertex y := by
  unfold Plan.stageAdd
  split
  · rfl
  · exact vertex_addOperation_ne p (NewStageOperation x) y h

theorem stageAdd_hasVertex_ne (p : Plan) (x y : String) (h : x ≠ y) :
    (p.stageAdd x).hasVertex y = p.hasVertex y := by
  unfold Plan.hasVertex
  rw [stageAdd_vertex_ne p x y h]

theorem stageAdd_vertex_created (p : Plan) (x : String)
    (h : p.hasVertex x = false) :
    (p.stageAdd x).vertex x = some (NewStageOperation x) := by
  unfold Plan.stageAdd
  rw [if_neg (by simp [h])]
  exact vertex_addOperation_self p (NewStageOperation x) h

theorem vertex_of_vertices_eq {p q : Plan} (h : p.vertices = q.vertices)
    (x : String) : p.vertex x = q.vertex x := by
  unfold Plan.vertex
  rw [h]

theorem hasVertex_of_vertices_eq {p q : Plan} (h : p.vertices = q.vertices)
    (x : String) : p.hasVertex x = q.hasVertex x := by
  unfold Plan.hasVertex
  rw [vertex_of_vertices_eq h]

theorem addDependency_ok_facts (p p' : Plan) (a b : String)
    (h : p.addDependency a b = .ok p') :
    p'.vertices = p.vertices ∧ p.edges ⊆ p'.edges ∧ (a, b) ∈ p'.edges := by
  rcases addDependency_ok p p' a b h with ⟨heq, hmem⟩ | ⟨hv, he, _⟩
  · subst heq
    exact ⟨rfl, List.Subset.refl _, hmem⟩
  · refine ⟨hv, ?_, ?_⟩
    · rw [he]
      exact List.subset_cons_self _ _
    · rw [he]
      exact List.mem_cons_self _ _

/-- Claim C6: a successful `AddStagedOperation(op, stageIn, stageOut)`
leaves the operation and both stage markers in the graph, with the edges
`stageIn → op`, `op → stageOut` and the spanning edge `stageIn → stageOut`
(so an empty stage still enforces ordering); a stage ID that was absent
beforehand now maps to a freshly created stage-marker vertex, and an absent
operation ID now maps to `op`. -/
theorem addStagedOperation_contract (p p' : Plan) (op : Operation)
    (sIn sOut : String) (h : p.addStagedOperation op sIn sOut = some p') :
    p'.hasVertex op.id = true ∧ p'.hasVertex sIn = true ∧
    p'.hasVertex sOut = true ∧
    (sIn, op.id) ∈ p'.edges ∧ (op.id, sOut) ∈ p'.edges ∧
    (sIn, sOut) ∈ p'.edges ∧
    (p.hasVertex op.id = false → p'.vertex op.id = some op) ∧
    (op.id ≠ sIn → p.hasVertex sIn = false →
      p'.vertex sIn = some (NewStageOperation sIn)) ∧
    (op.id ≠ sOut → p.hasVertex sOut = false →
      p'.vertex sOut = some (NewStageOperation sOut)) := by
  unfold Plan.addStagedOperation at h
  split at h
  next => exact Option.noConfusion h
  next p4 he4 =>
    split at h
    next => exact Option.noConfusion h
    next p5 he5 =>
      split at h
      next => exact Option.noConfusion h
      next p6 he6 =>
        have hp : p6 = p' := Option.some.inj h
        subst hp
        obtain ⟨hv4, hs4, hm4⟩ := addDependency_ok_facts _ _ _ _ he4
        obtain ⟨hv5, hs5, hm5⟩ := addDependency_ok_facts _ _ _ _ he5
        obtain ⟨hv6, hs6, hm6⟩ := addDependency_ok_facts _ _ _ _ he6
        have hvq : p6.vertices =
            (((p.addOperation op).stageAdd sIn).stageAdd sOut).vertices :=
          (hv6.trans hv5).trans hv4
        refine ⟨?_, ?_, ?_, hs6 hm5, hm6, hs6 (hs5 hm4), ?_, ?_, ?_⟩
        · rw [hasVertex_of_vertices_eq hvq]
          exact stageAdd_hasVertex_mono _ _ _
            (stageAdd_hasVertex_mono _ _ _ (hasVertex_addOperation_self p op))
        · rw [hasVertex_of_vertices_eq hvq]
          exact stageAdd_hasVertex_mono _ _ _ (stageAdd_hasVertex_self _ sIn)
        · rw [hasVertex_of_vertices_eq hvq]
          exact stageAdd_hasVertex_self _ sOut
        · intro hop
          rw [vertex_of_vertices_eq hvq]
          have h1 : (p.addOperation op).vertex op.id = some op :=
            vertex_addOperation_self p op hop
          have h1v : (p.addOperation op).hasVertex op.id = true :=
            hasVertex_of_vertex_some _ _ _ h1
          have h2 : ((p.addOperation op).stageAdd sIn).vertex op.id = some op := by
            by_cases hsi : sIn = op.id
            · rw [stageAdd_of_hasVertex _ _ (hsi ▸ h1v)]
              exact h1
            · rw [stageAdd_vertex_ne _ _ _ hsi]
              exact h1
          have h2v : ((p.addOperation op).stageAdd sIn).hasVertex op.id = true :=
            hasVertex_of_vertex_some _ _ _ h2
          by_cases hso : sOut = op.id
          · rw [stageAdd_of_hasVertex _ _ (hso ▸ h2v)]
            exact h2
          · rw [stageAdd_vertex_ne _ _ _ hso]
            exact h2
        · intro hne h0
          rw [vertex_of_vertices_eq hvq]
          have h1 : (p.addOperation op).hasVertex sIn = false := by
            rw [hasVertex_addOperation_ne p op sIn hne]
            exact h0
          have h2 : ((p.addOperation op).stageAdd sIn).vertex sIn =
              some (NewStageOperation sIn) :=
            stageAdd_vertex_created _ sIn h1
          have h2v : ((p.addOperation op).stageAdd sIn).hasVertex sIn = true :=
            hasVertex_of_vertex_some _ _ _ h2
          by_cases hso : sOut = sIn
          · rw [stageAdd_of_hasVertex _ _ (hso ▸ h2v)]
            exact h2
          · rw [stageAdd_vertex_ne _ _ _ hso]
            exact h2
        · intro hne h0
          rw [vertex_of_vertices_eq hvq]
          have h1 : (p.addOperation op).hasVertex sOut = false := by
            rw [hasVertex_addOperation_ne p op sOut hne]
            exact h0
          by_cases hsi : sIn = sOut
          · have h2 : ((p.addOperation op).stageAdd sIn).vertex sOut =
                some (NewStageOperation sOut) := by
              rw [hsi]
              exact stageAdd_vertex_created _ sOut h1
            have h2v : ((p.addOperation op).stageAdd sIn).hasVertex sOut = true :=
              hasVertex_of_vertex_some _ _ _ h2
            rw [stageAdd_of_hasVertex _ _ h2v]
            exact h2
          · have h2 : ((p.addOperation op).stageAdd sIn).hasVertex sOut = false := by
              rw [stageAdd_hasVertex_ne _ _ _ hsi]
              exact h1
            exact stageAdd_vertex_created _ sOut h2

theorem addStagedOperation_contract_witness :
    ("stage/in", "apply/v1/ConfigMap/ns/cm") ∈
      (Plan.mk
        [NewStageOperation "stage/out", NewStageOperation "stage/in",
          ⟨"apply/v1/ConfigMap/ns/cm", .applyR, .unknown, false⟩]
        [("apply/v1/ConfigMap/ns/cm", "stage/out"),
          ("stage/in", "apply/v1/ConfigMap/ns/cm"),
          ("stage/in", "stage/out")]).edges ∧
    (Plan.mk
        [NewStageOperation "stage/out", NewStageOperation "stage/in",
          ⟨"apply/v1/ConfigMap/ns/cm", .applyR, .unknown, false⟩]
        [("apply/v1/ConfigMap/ns/cm", "stage/out"),
          ("stage/in", "apply/v1/ConfigMap/ns/cm"),
          ("stage/in", "stage/out")]).vertex "stage/in" =
      some (NewStageOperation "stage/in") := by
  have h := addStagedOperation_contract NewPlan
    (Plan.mk
      [NewStageOperation "stage/out", NewStageOperation "stage/in",
        ⟨"apply/v1/ConfigMap/ns/cm", .applyR, .unknown, false⟩]
      [("apply/v1/ConfigMap/ns/cm", "stage/out"),
        ("stage/in", "apply/v1/ConfigMap/ns/cm"),
        ("stage/in", "stage/out")])
    ⟨"apply/v1/ConfigMap/ns/cm", .applyR, .unknown, false⟩
    "stage/in" "stage/out" (by decide)
  exact ⟨h.2.2.2.1, h.2.2.2.2.2.2.2.1 (by decide) (by decide)⟩

end Nelm
